import Mathlib

/-!
Formal model of the SquadJS squad-leader whitelister plugin
(`src/squad-leader-whitelist.js`), shallowly embedded in Lean.

JavaScript numbers are modelled as rationals, timestamps as integer
milliseconds, the Sequelize `WhitelistProgress` table as a list of records
in store order, and the roster supplied by the host as a list of player
descriptors.  Purely logged fields (`player.name`, `squad.squadName`) are
carried in the structures but never inspected by the model, exactly as the
code only ever reads them for debug logging.
-/

namespace SLWhitelist

/-- JavaScript value for the duck-typed squad lock flag.  The code applies
`String(player.squad.locked).toLowerCase()`, so strings, booleans and a
missing field must all be representable. -/
inductive JsVal where
  | str (s : String)
  | jsBool (b : Bool)
  | undef
deriving DecidableEq

/-- Mirrors the JavaScript conversion `String(v)` on `JsVal`. -/
def jsToString : JsVal → String
  | .str s => s
  | .jsBool true => "true"
  | .jsBool false => "false"
  | .undef => "undefined"

/-- ASCII lower-casing of one character, the fragment of
`String.prototype.toLowerCase` relevant to the lock flags. -/
def jsLowerChar (c : Char) : Char :=
  if 'A' ≤ c ∧ c ≤ 'Z' then Char.ofNat (c.toNat + 32) else c

/-- Mirrors `s.toLowerCase()` character by character. -/
def jsToLowerCase (s : String) : String := ⟨s.data.map jsLowerChar⟩

/-- Squad object attached to a roster entry (`player.squad`). -/
structure Squad where
  squadID : Nat
  squadName : String
  locked : JsVal
deriving DecidableEq

/-- One roster entry as consumed by `onPlayerInformationUpdate`.  `teamID`
is present in the host's data but, as in the source, never read by the
eligibility logic. -/
structure Player where
  steamID : String
  name : String
  teamID : Nat
  squad : Option Squad
  isLeader : Bool
deriving DecidableEq

/-- The plugin options read by the accrual and decay logic. -/
structure Config where
  threshold : Rat
  progressPerHour : Rat
  decayPerHour : Rat
  decayIntervalSeconds : Rat
  decayAfterHours : Rat
  minPlayersForDecay : Nat
  minSquadMembers : Nat
  onlyOpenSquads : Bool

/-- Member count used by the eligibility check: the code filters the whole
roster by `p.squad && p.squad.squadID === player.squad.squadID`. -/
def squadMemberCount (players : List Player) (squadID : Nat) : Nat :=
  (players.filter fun p =>
    match p.squad with
    | some s => s.squadID == squadID
    | none => false).length

/-- Eligibility of one roster entry, lines 393-423 of the source:
a squad object must be present, `isLeader` must hold, the roster-wide
member count of the squad id must reach `minSquadMembers`, and with
`onlyOpenSquads` the string form of the lock flag must lower-case to
"false". -/
def isEligibleLeader (cfg : Config) (players : List Player) (p : Player) : Bool :=
  match p.squad with
  | none => false
  | some sq =>
    p.isLeader &&
    decide (cfg.minSquadMembers ≤ squadMemberCount players sq.squadID) &&
    (!cfg.onlyOpenSquads || jsToLowerCase (jsToString sq.locked) == "false")

/-- The eligible-leader subset collected by the first loop of
`onPlayerInformationUpdate`, in roster order. -/
def eligibleLeaders (cfg : Config) (players : List Player) : List Player :=
  players.filter (isEligibleLeader cfg players)

/-- One row of the `WhitelistProgress` table: primary key `steamID`,
`progress` score, and the `lastProgressed` timestamp. -/
structure ProgressRecord where
  steamID : String
  progress : Rat
  lastProgressed : Int
deriving DecidableEq

/-- The two RCON milestone messages of the accrual loop. -/
inductive NotifMsg where
  | nowWhitelisted
  | progressUpdate (pct : Int)
deriving DecidableEq

/-- A milestone notification sent to one player. -/
structure Notification where
  steamID : String
  msg : NotifMsg
deriving DecidableEq

/-- `findOne({ where: { steamID } })` on the store: the first row whose
primary key matches. -/
def findRecord : List ProgressRecord → String → Option ProgressRecord
  | [], _ => none
  | r :: rs, sid => if r.steamID = sid then some r else findRecord rs sid

/-- Persisting one record: replace the row with the same primary key, or
insert at the end when none exists. -/
def saveRecord : List ProgressRecord → ProgressRecord → List ProgressRecord
  | [], r => [r]
  | x :: xs, r => if x.steamID = r.steamID then r :: xs else x :: saveRecord xs r

/-- The `create({ steamID, progress: 0, lastProgressed: now })` call made
when `findOne` returned nothing. -/
def createIfMissing (store : List ProgressRecord) (sid : String) (now : Int) :
    List ProgressRecord :=
  match findRecord store sid with
  | some _ => store
  | none => saveRecord store ⟨sid, 0, now⟩

/-- The score the accrual loop reads for a leader:
`playerRecord ? playerRecord.progress : 0`. -/
def storedProgress (store : List ProgressRecord) (sid : String) : Rat :=
  ((findRecord store sid).map ProgressRecord.progress).getD 0

/-- JavaScript `Math.round`: round half toward positive infinity. -/
def jsRound (q : Rat) : Int := ⌊q + 1 / 2⌋

/-- `progressPerHour / (3600 / 30)`, the per-tick score increment of the
accrual loop (line 439). -/
def progressIncrement (cfg : Config) : Rat :=
  cfg.progressPerHour / (3600 / 30)

/-- Processing of one eligible leader inside the accrual loop
(lines 443-502): read or create the record, add the increment, emit the
milestone notification when a new 10-point band is entered by a player not
already at the threshold, then persist the new score and timestamp.
The record fetched or freshly created always carries `oldProgress`,
so the saved score is `oldProgress + progressIncrement`. -/
def processLeader (cfg : Config) (now : Int) (store : List ProgressRecord)
    (sid : String) : List ProgressRecord × Option Notification :=
  let oldProgress := storedProgress store sid
  let store1 := createIfMissing store sid now
  let newProgress := oldProgress + progressIncrement cfg
  let oldMilestone := ⌊oldProgress / 10⌋
  let newMilestone := ⌊newProgress / 10⌋
  let notif : Option Notification :=
    if ¬ cfg.threshold ≤ oldProgress ∧ oldMilestone < newMilestone then
      if cfg.threshold ≤ newProgress then
        some ⟨sid, NotifMsg.nowWhitelisted⟩
      else
        some ⟨sid, NotifMsg.progressUpdate (jsRound (newProgress / cfg.threshold * 100))⟩
    else none
  (saveRecord store1 ⟨sid, newProgress, now⟩, notif)

/-- The accrual loop over the eligible leaders, in order, threading the
store and collecting the notifications sent. -/
def processLeaders (cfg : Config) (now : Int) :
    List ProgressRecord → List Player → List ProgressRecord × List Notification
  | store, [] => (store, [])
  | store, l :: ls =>
    let res := processLeader cfg now store l.steamID
    let rest := processLeaders cfg now res.1 ls
    (rest.1, res.2.toList ++ rest.2)

/-- `onPlayerInformationUpdate(players)`: `none` stands for a non-array
argument; a non-array or empty roster returns before touching the store. -/
def onPlayerInformationUpdate (cfg : Config) (now : Int)
    (store : List ProgressRecord) :
    Option (List Player) → List ProgressRecord × List Notification
  | none => (store, [])
  | some players =>
    if players.length = 0 then (store, [])
    else processLeaders cfg now store (eligibleLeaders cfg players)

/-- `decayPerHour / (60*60*1000) * (decayIntervalSeconds * 1000)`
(lines 592-594). -/
def decayAmountPerInterval (cfg : Config) : Rat :=
  cfg.decayPerHour / (60 * 60 * 1000) * (cfg.decayIntervalSeconds * 1000)

/-- Decay applied to one record (lines 605-630).  The boolean reports
whether `save()` was called, which the code only does when the clamped new
score is strictly below the old one. -/
def decayRecord (cfg : Config) (now : Int) (r : ProgressRecord) :
    ProgressRecord × Bool :=
  if cfg.decayAfterHours * 60 * 60 * 1000 < ((now - r.lastProgressed : Int) : Rat) then
    let newProgress := max 0 (r.progress - decayAmountPerInterval cfg)
    if newProgress < r.progress then ({ r with progress := newProgress }, true)
    else (r, false)
  else (r, false)

/-- `decayWhitelistProgress` (lines 576-636): a population gate, then the
per-record decay over every row of the table. -/
def decayWhitelistProgress (cfg : Config) (now : Int) (playerCount : Nat)
    (store : List ProgressRecord) : List ProgressRecord :=
  if playerCount < cfg.minPlayersForDecay then store
  else store.map fun r => (decayRecord cfg now r).1

/-- One step of the running system: either an accrual invocation with a
roster snapshot, or a decay tick with the live player count. -/
inductive SysEvent where
  | accrual (now : Int) (players : List Player)
  | decay (now : Int) (playerCount : Nat)

/-- Whether a system event is an accrual invocation. -/
def isAccrual : SysEvent → Bool
  | .accrual _ _ => true
  | .decay _ _ => false

/-- Effect of one system event on the store, together with the
notifications it sends. -/
def sysStep (cfg : Config) (store : List ProgressRecord) :
    SysEvent → List ProgressRecord × List Notification
  | .accrual now players => onPlayerInformationUpdate cfg now store (some players)
  | .decay now playerCount => (decayWhitelistProgress cfg now playerCount store, [])

/-- Run of the system over a list of events, collecting all notifications
in the order they are sent. -/
def runSys (cfg : Config) (store : List ProgressRecord) :
    List SysEvent → List ProgressRecord × List Notification
  | [] => (store, [])
  | e :: es =>
    let res := sysStep cfg store e
    let rest := runSys cfg res.1 es
    (rest.1, res.2 ++ rest.2)

/-- Number of notifications in a list addressed to one player. -/
def notifCountTo (sid : String) (ns : List Notification) : Nat :=
  (ns.filter fun n => n.steamID = sid).length

/-- The accrual loop when `save()` can throw.  `fails` lists the steam ids
whose `save()` call fails.  The loop body sits inside the single
try/catch wrapping all of `onPlayerInformationUpdate`, so the first throw
leaves the loop: the failing leader keeps only the `create` made for a
missing record, and no later leader is processed. -/
def processLeadersFail (cfg : Config) (now : Int) (fails : List String) :
    List ProgressRecord → List Player → List ProgressRecord
  | store, [] => store
  | store, l :: ls =>
    if l.steamID ∈ fails then createIfMissing store l.steamID now
    else processLeadersFail cfg now fails (processLeader cfg now store l.steamID).1 ls

/-- File content built by `generateWhitelistFile` (lines 709-713): group
line, one blank line, the admin lines joined by newlines, and a trailing
newline. -/
def whitelistContent (groupName : String) (ids : List String) : String :=
  let groupDefinition := "Group=" ++ groupName ++ ":reserve"
  let adminLines := String.intercalate "\n"
    (ids.map fun sid => "Admin=" ++ sid ++ ":" ++ groupName)
  groupDefinition ++ "\n\n" ++ adminLines ++ "\n"

/-- Node's `fs.writeFile` on an existing path: truncate the prior
contents, then write.  When the operation fails after `k` bytes, the
visible file is the truncated prefix of the new content — the prior
contents are already gone; only a complete run leaves the full content. -/
def fsWriteFileDirect (_prior content : String) (failAfter : Option Nat) : String :=
  match failAfter with
  | none => content
  | some k => ⟨content.data.take k⟩

/-- `generateWhitelistFile` (lines 675-727): select the rows with
`progress >= threshold` in store order and rewrite the file in place with
a single direct `fs.writeFile` call over the prior contents. -/
def generateWhitelistFile (cfg : Config) (groupName : String)
    (store : List ProgressRecord) (prior : String) (failAfter : Option Nat) :
    String :=
  let ids := ((store.filter fun r => cfg.threshold ≤ r.progress).map
    ProgressRecord.steamID)
  fsWriteFileDirect prior (whitelistContent groupName ids) failAfter

/-- The ways `mount()` arranges for `onPlayerInformationUpdate` to run:
line 256 subscribes it to the `UPDATED_PLAYER_INFORMATION` host event, and
`startProgressTracking` (lines 512-530) additionally installs a 30000 ms
repeating timer that pulls `this.server.players`. -/
inductive AccrualTrigger where
  | timer (ms : Nat)
  | event (eventName : String)
deriving DecidableEq

/-- The accrual triggers installed by `mount()`, in installation order. -/
def mountAccrualTriggers : List AccrualTrigger :=
  [.event "UPDATED_PLAYER_INFORMATION", .timer 30000]

/-- Number of accrual invocations in one hour when the host pushes
`pushes` roster updates in that hour: each installed timer fires on its
period and each `UPDATED_PLAYER_INFORMATION` subscription fires once per
push. -/
def accrualInvocationsPerHour (pushes : Nat) : Nat :=
  (mountAccrualTriggers.map fun t =>
    match t with
    | .timer ms => 3600000 / ms
    | .event eventName => if eventName = "UPDATED_PLAYER_INFORMATION" then pushes else 0).sum

/-- Greatest credit an always-eligible leader can earn in one hour under
`pushes` roster pushes: one increment per accrual invocation. -/
def maxCreditPerHour (cfg : Config) (pushes : Nat) : Rat :=
  (accrualInvocationsPerHour pushes : Rat) * progressIncrement cfg

/-- The reference configuration: the documented option defaults. -/
def cfgRef : Config :=
  { threshold := 100, progressPerHour := 50, decayPerHour := 5,
    decayIntervalSeconds := 1000, decayAfterHours := 2,
    minPlayersForDecay := 60, minSquadMembers := 4, onlyOpenSquads := true }

/-- An unlocked squad with id 1. -/
def sqAlpha : Squad := ⟨1, "Alpha", .jsBool false⟩

/-- A four-member roster whose only leader is "A". -/
def rosterRef : List Player :=
  [⟨"A", "Amber", 1, some sqAlpha, true⟩,
   ⟨"B", "Blake", 1, some sqAlpha, false⟩,
   ⟨"C", "Casey", 1, some sqAlpha, false⟩,
   ⟨"D", "Drew", 1, some sqAlpha, false⟩]

/-- The 30-second sampling ticks of the reference scenario: starting from
an empty table, tick `n+1` runs the accrual handler at time `n+1` on the
fixed roster.  The second component counts the ticks whose update moved
"A" from strictly below the threshold to at or above it. -/
def runScenario : Nat → List ProgressRecord × Nat
  | 0 => ([], 0)
  | n + 1 =>
    let prev := runScenario n
    let old := storedProgress prev.1 "A"
    let st2 := (onPlayerInformationUpdate cfgRef ((n : Int) + 1) prev.1 (some rosterRef)).1
    (st2,
      prev.2 + if old < cfgRef.threshold ∧ cfgRef.threshold ≤ storedProgress st2 "A"
        then 1 else 0)

/-- Config used for the squad-id pooling example. -/
def cfgPool : Config :=
  { threshold := 100, progressPerHour := 50, decayPerHour := 5,
    decayIntervalSeconds := 1000, decayAfterHours := 2,
    minPlayersForDecay := 60, minSquadMembers := 4, onlyOpenSquads := false }

/-- A second, unlocked squad also carrying id 1, fielded by team 2. -/
def sqBravo : Squad := ⟨1, "Bravo", .jsBool false⟩

/-- Leader of the two-member team-1 squad in `rosterPool`. -/
def leaderPool : Player := ⟨"L", "Lee", 1, some sqAlpha, true⟩

/-- Two teams each fielding a squad with id 1: the leader's own team-1
squad has only 2 entries, while team 2 contributes 3 more entries under
the same squad id. -/
def rosterPool : List Player :=
  [leaderPool,
   ⟨"M", "Mia", 1, some sqAlpha, false⟩,
   ⟨"X", "Xan", 2, some sqBravo, true⟩,
   ⟨"Y", "Yan", 2, some sqBravo, false⟩,
   ⟨"Z", "Zoe", 2, some sqBravo, false⟩]

theorem findRecord_saveRecord (store : List ProgressRecord) (r : ProgressRecord)
    (sid : String) :
    findRecord (saveRecord store r) sid =
      if r.steamID = sid then some r else findRecord store sid := by
  induction store with
  | nil => simp [saveRecord, findRecord]
  | cons x xs ih =>
    by_cases hx : x.steamID = r.steamID <;>
      by_cases h : r.steamID = sid <;>
        simp_all [saveRecord, findRecord]

theorem findRecord_createIfMissing_ne (store : List ProgressRecord)
    (sid sid' : String) (now : Int) (h : sid ≠ sid') :
    findRecord (createIfMissing store sid now) sid' = findRecord store sid' := by
  unfold createIfMissing
  cases hf : findRecord store sid with
  | some r => rfl
  | none => rw [findRecord_saveRecord]; simp [h]

theorem findRecord_processLeader (cfg : Config) (now : Int)
    (store : List ProgressRecord) (sid sid' : String) :
    findRecord (processLeader cfg now store sid).1 sid' =
      if sid = sid' then
        some ⟨sid, storedProgress store sid + progressIncrement cfg, now⟩
      else findRecord store sid' := by
  unfold processLeader
  simp only
  rw [findRecord_saveRecord]
  by_cases h : sid = sid'
  · simp [h]
  · simp [h, findRecord_createIfMissing_ne store sid sid' now h]

theorem processLeader_notif_steamID (cfg : Config) (now : Int)
    (store : List ProgressRecord) (sid : String) (n : Notification)
    (h : (processLeader cfg now store sid).2 = some n) : n.steamID = sid := by
  unfold processLeader at h
  simp only at h
  split_ifs at h <;> (cases h; rfl)

theorem processLeader_silent_of_whitelisted (cfg : Config) (now : Int)
    (store : List ProgressRecord) (sid : String)
    (h : cfg.threshold ≤ storedProgress store sid) :
    (processLeader cfg now store sid).2 = none := by
  unfold processLeader
  simp [h]

/-- C1: the eligible-leader set computed at the start of an accrual tick
contains exactly the roster entries that carry a squad object, have
`isLeader` set, whose squad id has a roster-wide member count of at least
`minSquadMembers`, and, when `onlyOpenSquads` is set, whose lock flag's
string form lower-cases to "false"; entries missing the squad object or
the lock flag are simply excluded, and the filter is a pure function of
the snapshot (no store access, no notifications). -/
theorem eligible_filter_exact (cfg : Config) (players : List Player) (p : Player) :
    (p ∈ eligibleLeaders cfg players ↔
      p ∈ players ∧ p.isLeader = true ∧
      ∃ sq, p.squad = some sq ∧
        cfg.minSquadMembers ≤ squadMemberCount players sq.squadID ∧
        (cfg.onlyOpenSquads = true → jsToLowerCase (jsToString sq.locked) = "false")) ∧
    (eligibleLeaders cfg players).Sublist players := by
  refine ⟨?_, List.filter_sublist players⟩
  unfold eligibleLeaders
  rw [List.mem_filter]
  refine and_congr_right fun _ => ?_
  unfold isEligibleLeader
  cases hsq : p.squad with
  | none => simp [hsq]
  | some sq =>
    simp only [hsq, Option.some.injEq, Bool.and_eq_true, decide_eq_true_eq,
      Bool.or_eq_true, Bool.not_eq_true', beq_iff_eq]
    constructor
    · rintro ⟨⟨hl, hc⟩, hlock⟩
      refine ⟨hl, sq, rfl, hc, fun ho => ?_⟩
      rcases hlock with hfalse | hgood
      · rw [ho] at hfalse; cases hfalse
      · exact hgood
    · rintro ⟨hl, sq', hsq', hc, hlock⟩
      obtain rfl : sq = sq' := hsq'
      refine ⟨⟨hl, hc⟩, ?_⟩
      by_cases ho : cfg.onlyOpenSquads = true
      · exact Or.inr (hlock ho)
      · exact Or.inl (by simpa using ho)

/-- C3: on an accrual update the notification fires exactly when the
10-point band `floor(score/10)` changes and the old score was strictly
below the threshold; it announces whitelisting exactly when the new score
reaches the threshold, and otherwise reports the rounded percentage
`100 * newScore / threshold`. -/
theorem milestone_notification_rule (cfg : Config) (now : Int)
    (store : List ProgressRecord) (sid : String)
    (hpph : 0 ≤ cfg.progressPerHour) :
    ((processLeader cfg now store sid).2 ≠ none ↔
      (⌊storedProgress store sid / 10⌋ ≠
          ⌊(storedProgress store sid + progressIncrement cfg) / 10⌋ ∧
        storedProgress store sid < cfg.threshold)) ∧
    ((processLeader cfg now store sid).2 = some ⟨sid, NotifMsg.nowWhitelisted⟩ ↔
      (⌊storedProgress store sid / 10⌋ ≠
          ⌊(storedProgress store sid + progressIncrement cfg) / 10⌋ ∧
        storedProgress store sid < cfg.threshold ∧
        cfg.threshold ≤ storedProgress store sid + progressIncrement cfg)) ∧
    ((processLeader cfg now store sid).2 =
        some ⟨sid, NotifMsg.progressUpdate
          (jsRound ((storedProgress store sid + progressIncrement cfg) /
            cfg.threshold * 100))⟩ ↔
      (⌊storedProgress store sid / 10⌋ ≠
          ⌊(storedProgress store sid + progressIncrement cfg) / 10⌋ ∧
        storedProgress store sid < cfg.threshold ∧
        storedProgress store sid + progressIncrement cfg < cfg.threshold)) := by
  have hinc : 0 ≤ progressIncrement cfg := div_nonneg hpph (by norm_num)
  have hle : storedProgress store sid ≤
      storedProgress store sid + progressIncrement cfg :=
    le_add_of_nonneg_right hinc
  have hmono : ⌊storedProgress store sid / 10⌋ ≤
      ⌊(storedProgress store sid + progressIncrement cfg) / 10⌋ :=
    Int.floor_le_floor ((div_le_div_iff_of_pos_right (by norm_num)).mpr hle)
  have hne : (⌊storedProgress store sid / 10⌋ ≠
        ⌊(storedProgress store sid + progressIncrement cfg) / 10⌋) ↔
      (⌊storedProgress store sid / 10⌋ <
        ⌊(storedProgress store sid + progressIncrement cfg) / 10⌋) :=
    ⟨fun h => lt_of_le_of_ne hmono h, fun h => ne_of_lt h⟩
  have hmain : (processLeader cfg now store sid).2 =
      if storedProgress store sid < cfg.threshold ∧
          ⌊storedProgress store sid / 10⌋ <
            ⌊(storedProgress store sid + progressIncrement cfg) / 10⌋ then
        (if cfg.threshold ≤ storedProgress store sid + progressIncrement cfg then
          some ⟨sid, NotifMsg.nowWhitelisted⟩
        else
          some ⟨sid, NotifMsg.progressUpdate
            (jsRound ((storedProgress store sid + progressIncrement cfg) /
              cfg.threshold * 100))⟩)
      else none := by
    unfold processLeader
    simp only [not_le]
  refine ⟨?_, ?_, ?_⟩ <;>
    (rw [hmain, hne]
     by_cases hA : storedProgress store sid < cfg.threshold <;>
       by_cases hB : ⌊storedProgress store sid / 10⌋ <
           ⌊(storedProgress store sid + progressIncrement cfg) / 10⌋ <;>
         by_cases hC : cfg.threshold ≤
             storedProgress store sid + progressIncrement cfg <;>
           simp_all [← not_le])

/-- Witness for the milestone rule: a leader at score 99/5 = 19.8 with the
reference configuration crosses into the 20-29 band and is notified. -/
theorem milestone_notification_witness :
    (processLeader cfgRef 5 [⟨"A", 99 / 5, 0⟩] "A").2 ≠ none := by
  have hsp : storedProgress [⟨"A", (99 : Rat) / 5, 0⟩] "A" = 99 / 5 := by
    norm_num [storedProgress, findRecord]
  have hpi : progressIncrement cfgRef = 5 / 12 := by
    norm_num [progressIncrement, cfgRef]
  have h := (milestone_notification_rule cfgRef 5 [⟨"A", 99 / 5, 0⟩] "A"
      (by norm_num [cfgRef])).1
  rw [hsp, hpi] at h
  refine h.mpr ⟨?_, by norm_num [cfgRef]⟩
  have h1 : (⌊(99 : Rat) / 5 / 10⌋ : Int) = 1 := by
    rw [Int.floor_eq_iff]
    norm_num
  have h2 : (⌊((99 : Rat) / 5 + 5 / 12) / 10⌋ : Int) = 2 := by
    rw [Int.floor_eq_iff]
    norm_num
  rw [h1, h2]
  decide

/-- The eligible set of the reference roster is exactly its leader. -/
theorem eligibleLeaders_rosterRef :
    eligibleLeaders cfgRef rosterRef = [⟨"A", "Amber", 1, some sqAlpha, true⟩] := by
  decide

/-- On the reference roster, one accrual invocation only processes "A". -/
theorem tickStore_eq (st : List ProgressRecord) (t : Int) :
    (onPlayerInformationUpdate cfgRef t st (some rosterRef)).1 =
      (processLeader cfgRef t st "A").1 := by
  have hlen : ¬ (rosterRef.length = 0) := by decide
  simp only [onPlayerInformationUpdate]
  rw [if_neg hlen, eligibleLeaders_rosterRef]
  rfl

/-- Evaluating one accrual step on a singleton store holding "A". -/
theorem processLeader_single (q : Rat) (s t : Int) :
    (processLeader cfgRef t [⟨"A", q, s⟩] "A").1 = [⟨"A", q + 5 / 12, t⟩] := by
  have hpi : progressIncrement cfgRef = 5 / 12 := by
    norm_num [progressIncrement, cfgRef]
  simp [processLeader, createIfMissing, findRecord, saveRecord, storedProgress, hpi]

/-- Evaluating one accrual step on the empty store. -/
theorem processLeader_empty (t : Int) :
    (processLeader cfgRef t [] "A").1 = [⟨"A", 5 / 12, t⟩] := by
  have hpi : progressIncrement cfgRef = 5 / 12 := by
    norm_num [progressIncrement, cfgRef]
  simp [processLeader, createIfMissing, findRecord, saveRecord, storedProgress, hpi]

/-- Closed form of the reference scenario: after `n` ticks the sole
eligible leader holds `n * 5/12` points, and the threshold has been
crossed exactly once as soon as `n` reaches 240. -/
theorem runScenario_spec (n : Nat) :
    runScenario n =
      (if n = 0 then [] else [⟨"A", (n : Rat) * (5 / 12), (n : Int)⟩],
        if 240 ≤ n then 1 else 0) := by
  induction n with
  | zero => rfl
  | succ n ih =>
    have hth : cfgRef.threshold = 100 := rfl
    simp only [runScenario, ih, tickStore_eq]
    by_cases h0 : n = 0
    · subst h0
      rw [if_pos rfl, processLeader_empty]
      norm_num [storedProgress, findRecord, hth]
    · rw [if_neg h0, processLeader_single]
      have hsp2 : storedProgress [⟨"A", (n : Rat) * (5 / 12) + 5 / 12,
          (n : Int) + 1⟩] "A" = (n : Rat) * (5 / 12) + 5 / 12 := by
        norm_num [storedProgress, findRecord]
      have hsp1 : storedProgress [⟨"A", (n : Rat) * (5 / 12), (n : Int)⟩] "A" =
          (n : Rat) * (5 / 12) := by
        norm_num [storedProgress, findRecord]
      rw [hsp1, hsp2, hth]
      have harith : (n : Rat) * (5 / 12) + 5 / 12 = ((n + 1 : Nat) : Rat) * (5 / 12) := by
        push_cast
        ring
      have hsucc0 : ¬ (n + 1 = 0) := Nat.succ_ne_zero n
      have hcast : ((n + 1 : Nat) : Int) = (n : Int) + 1 := by push_cast; ring
      by_cases h240 : 240 ≤ n
      · have hold : ¬ ((n : Rat) * (5 / 12) < 100) := by
          rw [not_lt, show (100 : Rat) = 240 * (5 / 12) by norm_num]
          exact mul_le_mul_of_nonneg_right (by exact_mod_cast h240) (by norm_num)
        have hcross : ¬ ((n : Rat) * (5 / 12) < 100 ∧
            100 ≤ (n : Rat) * (5 / 12) + 5 / 12) := fun hc => hold hc.1
        have h241 : 240 ≤ n + 1 := Nat.le_succ_of_le h240
        rw [if_neg hcross, if_pos h240, if_pos h241, if_neg hsucc0, harith, hcast]
      · have hlt : n < 240 := Nat.lt_of_not_le h240
        by_cases h239 : n = 239
        · subst h239
          have hcross : ((239 : Nat) : Rat) * (5 / 12) < 100 ∧
              100 ≤ ((239 : Nat) : Rat) * (5 / 12) + 5 / 12 := by
            constructor <;> norm_num
          rw [if_pos hcross, if_neg (by norm_num : ¬ (240 ≤ 239)),
            if_pos (by norm_num : 240 ≤ 239 + 1), if_neg hsucc0, harith, hcast]
        · have hn239 : n + 1 < 240 := by omega
          have hnew : ((n : Rat) * (5 / 12) + 5 / 12) < 100 := by
            rw [harith, show (100 : Rat) = 240 * (5 / 12) by norm_num]
            refine mul_lt_mul_of_pos_right ?_ (by norm_num)
            exact_mod_cast hn239
          have hcross : ¬ ((n : Rat) * (5 / 12) < 100 ∧
              100 ≤ (n : Rat) * (5 / 12) + 5 / 12) :=
            fun hc => absurd hc.2 (not_le.mpr hnew)
          rw [if_neg hcross, if_neg h240, if_neg (by omega : ¬ (240 ≤ n + 1)),
            if_neg hsucc0, harith, hcast]

/-- C2: the per-tick delta is `progressPerHour * (30/3600)`; a missing
record is created with score 0 before the update; the persisted record
carries `oldScore + delta` and `lastProgressedAt = now`; and in the
reference scenario (threshold 100, progressPerHour 50, 30 s ticks) the
delta is 5/12 and 240 consecutive ticks for a sole eligible leader reach
score 100, crossing the threshold exactly once. -/
theorem accrual_update_rule :
    (∀ cfg : Config, progressIncrement cfg = cfg.progressPerHour * (30 / 3600)) ∧
    (∀ (store : List ProgressRecord) (sid : String) (now : Int),
        findRecord store sid = none →
        findRecord (createIfMissing store sid now) sid = some ⟨sid, 0, now⟩) ∧
    (∀ (cfg : Config) (now : Int) (store : List ProgressRecord) (sid : String),
        findRecord (processLeader cfg now store sid).1 sid =
          some ⟨sid, storedProgress store sid + progressIncrement cfg, now⟩) ∧
    progressIncrement cfgRef = 5 / 12 ∧
    (runScenario 240).1 = [⟨"A", 100, 240⟩] ∧
    (runScenario 240).2 = 1 := by
  refine ⟨?_, ?_, ?_, ?_, ?_, ?_⟩
  · intro cfg
    unfold progressIncrement
    rw [div_eq_mul_inv]
    norm_num
  · intro store sid now h
    unfold createIfMissing
    rw [h, findRecord_saveRecord, if_pos rfl]
  · intro cfg now store sid
    rw [findRecord_processLeader, if_pos rfl]
  · norm_num [progressIncrement, cfgRef]
  · rw [runScenario_spec]
    norm_num
  · rw [runScenario_spec]
    norm_num

/-- Witness for the accrual rule: creating the missing record for "A" at
time 7 seeds it with score 0. -/
theorem accrual_update_witness :
    findRecord (createIfMissing [] "A" 7) "A" = some ⟨"A", 0, 7⟩ :=
  accrual_update_rule.2.1 [] "A" 7 rfl

/-- C9: a non-array argument (modelled as `none`) or an empty roster makes
the accrual handler return before reading the store: no record is touched,
no notification is sent, and nothing is thrown. -/
theorem empty_roster_noop (cfg : Config) (now : Int) (store : List ProgressRecord) :
    onPlayerInformationUpdate cfg now store none = (store, []) ∧
    onPlayerInformationUpdate cfg now store (some []) = (store, []) :=
  ⟨rfl, rfl⟩

/-- C10: the member count behind eligibility pools every roster entry
carrying the same squad id regardless of team: the count is invariant
under arbitrary reassignment of team ids, and in a roster where squads of
both teams share id 1 the leader of a 2-member squad passes the 4-member
requirement even though their own team's squad is below it. -/
theorem squad_count_pools_by_id :
    (∀ (players : List Player) (sid : Nat) (f : Player → Nat),
        squadMemberCount (players.map fun p => { p with teamID := f p }) sid =
          squadMemberCount players sid) ∧
    isEligibleLeader cfgPool rosterPool leaderPool = true ∧
    (rosterPool.filter fun p =>
        (p.teamID == leaderPool.teamID) &&
          match p.squad with
          | some s => s.squadID == 1
          | none => false).length < cfgPool.minSquadMembers := by
  refine ⟨?_, by decide, by decide⟩
  intro players sid f
  induction players with
  | nil => rfl
  | cons p ps ih =>
    unfold squadMemberCount at *
    simp only [List.map_cons, List.filter_cons]
    cases hp : p.squad with
    | none => simpa [hp] using ih
    | some s => by_cases hs : s.squadID = sid <;> simp_all [hp, hs]



/-- C5: the decay tick is a no-op below the population gate; otherwise
every record is decayed independently: a record idle for at most
`decayAfterHours` (in milliseconds) is unchanged, otherwise its score is
clamped to `max 0 (score - decayAmount)` and saved exactly when the score
strictly decreased; `lastProgressed` is never modified by decay and a
non-negative score stays non-negative. -/
theorem decay_tick_rule (cfg : Config) (now : Int) (playerCount : Nat)
    (store : List ProgressRecord) (r : ProgressRecord) :
    (playerCount < cfg.minPlayersForDecay →
      decayWhitelistProgress cfg now playerCount store = store) ∧
    (cfg.minPlayersForDecay ≤ playerCount →
      decayWhitelistProgress cfg now playerCount store =
        store.map fun x => (decayRecord cfg now x).1) ∧
    (((now - r.lastProgressed : Int) : Rat) ≤ cfg.decayAfterHours * 60 * 60 * 1000 →
      decayRecord cfg now r = (r, false)) ∧
    (cfg.decayAfterHours * 60 * 60 * 1000 < ((now - r.lastProgressed : Int) : Rat) →
      (decayRecord cfg now r).1.progress =
        (if max 0 (r.progress - decayAmountPerInterval cfg) < r.progress then
          max 0 (r.progress - decayAmountPerInterval cfg) else r.progress)) ∧
    ((decayRecord cfg now r).2 = true ↔
      (cfg.decayAfterHours * 60 * 60 * 1000 <
          ((now - r.lastProgressed : Int) : Rat) ∧
        max 0 (r.progress - decayAmountPerInterval cfg) < r.progress)) ∧
    (decayRecord cfg now r).1.lastProgressed = r.lastProgressed ∧
    (0 ≤ r.progress → 0 ≤ (decayRecord cfg now r).1.progress) := by
  refine ⟨?_, ?_, ?_, ?_, ?_, ?_, ?_⟩
  · intro h
    unfold decayWhitelistProgress
    rw [if_pos h]
  · intro h
    unfold decayWhitelistProgress
    rw [if_neg (not_lt.mpr h)]
  · intro h
    simp only [decayRecord]
    rw [if_neg (not_lt.mpr h)]
  · intro h
    simp only [decayRecord]
    rw [if_pos h]
    split_ifs <;> rfl
  · simp only [decayRecord]
    split_ifs with h1 h2
    · exact ⟨fun _ => ⟨h1, h2⟩, fun _ => rfl⟩
    · constructor
      · intro hfalse
        cases hfalse
      · rintro ⟨_, hlt⟩
        exact absurd hlt h2
    · constructor
      · intro hfalse
        cases hfalse
      · rintro ⟨hgt, _⟩
        exact absurd hgt h1
  · simp only [decayRecord]
    split_ifs <;> rfl
  · intro h
    simp only [decayRecord]
    split_ifs <;> first
      | exact h
      | exact le_max_left 0 _

/-- Witness for the decay rule: with only 3 live players the reference
configuration's population gate (60) keeps the store untouched, and a
record idle for just one second is untouched with its score still
non-negative. -/
theorem decay_tick_witness :
    decayWhitelistProgress cfgRef 0 3 [⟨"A", 50, 0⟩] = [⟨"A", 50, 0⟩] ∧
    decayRecord cfgRef 1000 ⟨"A", 50, 0⟩ = (⟨"A", 50, 0⟩, false) ∧
    (0 : Rat) ≤ (decayRecord cfgRef 1000 ⟨"A", 50, 0⟩).1.progress :=
  ⟨(decay_tick_rule cfgRef 0 3 [⟨"A", 50, 0⟩] ⟨"A", 50, 0⟩).1
      (by norm_num [cfgRef]),
    (decay_tick_rule cfgRef 1000 3 [] ⟨"A", 50, 0⟩).2.2.1
      (by norm_num [cfgRef]),
    (decay_tick_rule cfgRef 1000 3 [] ⟨"A", 50, 0⟩).2.2.2.2.2.2
      (by norm_num)⟩

/-- One accrual loop never notifies a player whose stored score already
reaches the threshold, and keeps that record present at or above the
threshold (the loop only adds a non-negative increment). -/
theorem processLeaders_keeps_whitelisted (cfg : Config) (now : Int)
    (ps : List Player) (store : List ProgressRecord) (sid : String)
    (r0 : ProgressRecord) (hpph : 0 ≤ cfg.progressPerHour)
    (h0 : findRecord store sid = some r0) (hth : cfg.threshold ≤ r0.progress) :
    (∀ n ∈ (processLeaders cfg now store ps).2, n.steamID ≠ sid) ∧
    ∃ r1, findRecord (processLeaders cfg now store ps).1 sid = some r1 ∧
      cfg.threshold ≤ r1.progress := by
  induction ps generalizing store r0 with
  | nil => exact ⟨by simp [processLeaders], r0, h0, hth⟩
  | cons l ls ih =>
    have hinc : 0 ≤ progressIncrement cfg := div_nonneg hpph (by norm_num)
    by_cases hl : l.steamID = sid
    · have hspl : storedProgress store l.steamID = r0.progress := by
        unfold storedProgress
        rw [hl, h0]
        rfl
      have hsilent : (processLeader cfg now store l.steamID).2 = none := by
        apply processLeader_silent_of_whitelisted
        rw [hspl]
        exact hth
      have hfind : findRecord (processLeader cfg now store l.steamID).1 sid =
          some ⟨l.steamID,
            storedProgress store l.steamID + progressIncrement cfg, now⟩ := by
        rw [findRecord_processLeader, if_pos hl]
      have hth2 : cfg.threshold ≤
          storedProgress store l.steamID + progressIncrement cfg := by
        rw [hspl]
        exact le_trans hth (le_add_of_nonneg_right hinc)
      obtain ⟨hns, r1, hr1, hth1⟩ :=
        ih (processLeader cfg now store l.steamID).1
          ⟨l.steamID, storedProgress store l.steamID + progressIncrement cfg, now⟩
          hfind hth2
      refine ⟨?_, r1, hr1, hth1⟩
      intro n hn
      simp only [processLeaders] at hn
      rw [hsilent] at hn
      exact hns n (by simpa using hn)
    · have hfind : findRecord (processLeader cfg now store l.steamID).1 sid =
          some r0 := by
        rw [findRecord_processLeader, if_neg hl, h0]
      obtain ⟨hns, r1, hr1, hth1⟩ := ih (processLeader cfg now store l.steamID).1 r0 hfind hth
      refine ⟨?_, r1, hr1, hth1⟩
      intro n hn
      simp only [processLeaders] at hn
      rcases List.mem_append.mp hn with hmem | hmem
      · cases hopt : (processLeader cfg now store l.steamID).2 with
        | none =>
          rw [hopt] at hmem
          cases hmem
        | some n0 =>
          rw [hopt] at hmem
          have hn0 : n = n0 := by simpa using hmem
          have hsid := processLeader_notif_steamID cfg now store l.steamID n0 hopt
          rw [hn0, hsid]
          exact hl
      · exact hns n hmem

/-- Helper: in any execution made of accrual invocations only, a player
whose stored score has reached the threshold is never notified
afterwards. -/
theorem runSys_silence_of_whitelisted (cfg : Config) (sid : String)
    (r0 : ProgressRecord) (store : List ProgressRecord) (es : List SysEvent)
    (hpph : 0 ≤ cfg.progressPerHour)
    (hacc : ∀ e ∈ es, isAccrual e = true)
    (h0 : findRecord store sid = some r0) (hth : cfg.threshold ≤ r0.progress) :
    ∀ n ∈ (runSys cfg store es).2, n.steamID ≠ sid := by
  induction es generalizing store r0 with
  | nil => simp [runSys]
  | cons e es ih =>
    cases e with
    | decay t pc =>
      have := hacc _ (List.mem_cons_self _ _)
      simp [isAccrual] at this
    | accrual t ps =>
      have hacc' : ∀ e ∈ es, isAccrual e = true :=
        fun e he => hacc e (List.mem_cons_of_mem _ he)
      by_cases hlen : ps.length = 0
      · intro n hn
        simp only [runSys, sysStep, onPlayerInformationUpdate, if_pos hlen] at hn
        exact ih r0 store hacc' h0 hth n (by simpa using hn)
      · intro n hn
        simp only [runSys, sysStep, onPlayerInformationUpdate, if_neg hlen] at hn
        obtain ⟨hns, r1, hr1, hth1⟩ := processLeaders_keeps_whitelisted cfg t
          (eligibleLeaders cfg ps) store sid r0 hpph h0 hth
        rcases List.mem_append.mp hn with hmem | hmem
        · exact hns n hmem
        · exact ih r1 _ hacc' hr1 hth1 n hmem

theorem notifCountTo_append (sid : String) (a b : List Notification) :
    notifCountTo sid (a ++ b) = notifCountTo sid a + notifCountTo sid b := by
  simp [notifCountTo, List.filter_append]

/-- A notification is only emitted when the 10-point band strictly
increases. -/
theorem processLeader_notif_band (cfg : Config) (now : Int)
    (store : List ProgressRecord) (sid : String)
    (h : (processLeader cfg now store sid).2 ≠ none) :
    ⌊storedProgress store sid / 10⌋ <
      ⌊(storedProgress store sid + progressIncrement cfg) / 10⌋ := by
  by_cases hc : ¬ cfg.threshold ≤ storedProgress store sid ∧
      ⌊storedProgress store sid / 10⌋ <
        ⌊(storedProgress store sid + progressIncrement cfg) / 10⌋
  · exact hc.2
  · exfalso
    apply h
    unfold processLeader
    simp only
    rw [if_neg hc]

/-- Band accounting for one leader update: the notifications it sends to
any player are bounded by the number of 10-point boundaries that player's
stored score crosses. -/
theorem processLeader_band_bound (cfg : Config) (now : Int)
    (store : List ProgressRecord) (sid' sid : String)
    (hpph : 0 ≤ cfg.progressPerHour) :
    (notifCountTo sid (processLeader cfg now store sid').2.toList : Int) ≤
      ⌊storedProgress (processLeader cfg now store sid').1 sid / 10⌋ -
        ⌊storedProgress store sid / 10⌋ := by
  have hinc : 0 ≤ progressIncrement cfg := div_nonneg hpph (by norm_num)
  have hafter : storedProgress (processLeader cfg now store sid').1 sid =
      if sid' = sid then storedProgress store sid' + progressIncrement cfg
      else storedProgress store sid := by
    unfold storedProgress
    rw [findRecord_processLeader]
    by_cases hs : sid' = sid
    · simp only [if_pos hs]
      rfl
    · simp only [if_neg hs]
  by_cases hs : sid' = sid
  · cases hopt : (processLeader cfg now store sid').2 with
    | none =>
      have hcount : notifCountTo sid (none : Option Notification).toList = 0 := rfl
      have hmono : ⌊storedProgress store sid' / 10⌋ ≤
          ⌊(storedProgress store sid' + progressIncrement cfg) / 10⌋ :=
        Int.floor_le_floor ((div_le_div_iff_of_pos_right (by norm_num)).mpr
          (le_add_of_nonneg_right hinc))
      rw [hcount, hafter, if_pos hs, ← hs]
      omega
    | some n =>
      have hband : ⌊storedProgress store sid' / 10⌋ <
          ⌊(storedProgress store sid' + progressIncrement cfg) / 10⌋ :=
        processLeader_notif_band cfg now store sid' (by rw [hopt]; simp)
      have hsid := processLeader_notif_steamID cfg now store sid' n hopt
      have hcount : notifCountTo sid (some n).toList = 1 := by
        simp [notifCountTo, Option.toList, hsid, hs]
      rw [hcount, hafter, if_pos hs, ← hs]
      omega
  · cases hopt : (processLeader cfg now store sid').2 with
    | none =>
      have hcount : notifCountTo sid (none : Option Notification).toList = 0 := rfl
      rw [hcount, hafter, if_neg hs]
      omega
    | some n =>
      have hsid := processLeader_notif_steamID cfg now store sid' n hopt
      have hne : ¬ (n.steamID = sid) := by
        rw [hsid]
        exact hs
      have hcount : notifCountTo sid (some n).toList = 0 := by
        simp [notifCountTo, Option.toList, hne]
      rw [hcount, hafter, if_neg hs]
      omega

/-- Band accounting over a whole accrual loop, by telescoping the
per-leader bound. -/
theorem processLeaders_band_bound (cfg : Config) (now : Int)
    (ps : List Player) (store : List ProgressRecord) (sid : String)
    (hpph : 0 ≤ cfg.progressPerHour) :
    (notifCountTo sid (processLeaders cfg now store ps).2 : Int) ≤
      ⌊storedProgress (processLeaders cfg now store ps).1 sid / 10⌋ -
        ⌊storedProgress store sid / 10⌋ := by
  induction ps generalizing store with
  | nil => simp [processLeaders, notifCountTo]
  | cons l ls ih =>
    simp only [processLeaders]
    have h1 := processLeader_band_bound cfg now store l.steamID sid hpph
    have h2 := ih (processLeader cfg now store l.steamID).1
    rw [notifCountTo_append]
    push_cast
    omega

/-- Band accounting over an accrual-only run. -/
theorem runSys_band_bound (cfg : Config) (es : List SysEvent)
    (store : List ProgressRecord) (sid : String)
    (hpph : 0 ≤ cfg.progressPerHour)
    (hacc : ∀ e ∈ es, isAccrual e = true) :
    (notifCountTo sid (runSys cfg store es).2 : Int) ≤
      ⌊storedProgress (runSys cfg store es).1 sid / 10⌋ -
        ⌊storedProgress store sid / 10⌋ := by
  induction es generalizing store with
  | nil => simp [runSys, notifCountTo]
  | cons e es ih =>
    cases e with
    | decay t pc =>
      have := hacc _ (List.mem_cons_self _ _)
      simp [isAccrual] at this
    | accrual t ps =>
      have hacc' : ∀ e ∈ es, isAccrual e = true :=
        fun e he => hacc e (List.mem_cons_of_mem _ he)
      simp only [runSys, sysStep]
      by_cases hlen : ps.length = 0
      · simp only [onPlayerInformationUpdate, if_pos hlen]
        simpa using ih store hacc'
      · simp only [onPlayerInformationUpdate, if_neg hlen]
        have h1 := processLeaders_band_bound cfg t (eligibleLeaders cfg ps)
          store sid hpph
        have h2 := ih (processLeaders cfg t store (eligibleLeaders cfg ps)).1 hacc'
        rw [notifCountTo_append]
        push_cast
        omega

/-- C4 (amended): from any store state in which a player's score is at or
above the threshold, a single system step — accrual with any roster, or
decay — emits no notification to that player; in executions made of
accrual invocations only that silence is permanent; and in such
accrual-only executions every player receives at most one notification
per 10-point band: the number of notifications to a player is bounded by
the number of band boundaries their stored score crosses.  The unamended
claim also promised silence and band uniqueness across decay, which is
refuted by `threshold_silence_counterexample`: the code gates the
notification on the score immediately before each update, not on having
ever reached the threshold. -/
theorem threshold_silence_accrual_only (cfg : Config) (sid : String)
    (store : List ProgressRecord) (es : List SysEvent)
    (hpph : 0 ≤ cfg.progressPerHour)
    (hacc : ∀ e ∈ es, isAccrual e = true) :
    (∀ r0, findRecord store sid = some r0 → cfg.threshold ≤ r0.progress →
      (∀ (e : SysEvent), ∀ n ∈ (sysStep cfg store e).2, n.steamID ≠ sid) ∧
      (∀ n ∈ (runSys cfg store es).2, n.steamID ≠ sid)) ∧
    (notifCountTo sid (runSys cfg store es).2 : Int) ≤
      ⌊storedProgress (runSys cfg store es).1 sid / 10⌋ -
        ⌊storedProgress store sid / 10⌋ := by
  constructor
  · intro r0 h0 hth
    constructor
    · intro e n hn
      cases e with
      | decay t pc =>
        simp only [sysStep] at hn
        cases hn
      | accrual t ps =>
        simp only [sysStep] at hn
        by_cases hlen : ps.length = 0
        · simp only [onPlayerInformationUpdate, if_pos hlen] at hn
          cases hn
        · simp only [onPlayerInformationUpdate, if_neg hlen] at hn
          exact (processLeaders_keeps_whitelisted cfg t (eligibleLeaders cfg ps)
            store sid r0 hpph h0 hth).1 n hn
    · exact runSys_silence_of_whitelisted cfg sid r0 store es hpph hacc h0 hth
  · exact runSys_band_bound cfg es store sid hpph hacc

/-- Witness for the amended C4: a run of one accrual tick over a store in
which "A" already holds the threshold score emits nothing to "A". -/
theorem threshold_silence_witness :
    Notification.mk "A" NotifMsg.nowWhitelisted ∉
      (runSys cfgRef [⟨"A", 100, 0⟩] [SysEvent.accrual 1 rosterRef]).2 :=
  fun hmem =>
    ((threshold_silence_accrual_only cfgRef "A" [⟨"A", 100, 0⟩]
        [SysEvent.accrual 1 rosterRef] (by norm_num [cfgRef])
        (by simp [isAccrual])).1 ⟨"A", 100, 0⟩ (by decide)
        (by norm_num [cfgRef])).2
      ⟨"A", NotifMsg.nowWhitelisted⟩ hmem rfl

/-- Configuration used by the decay/re-accrual counterexample: increment
10 per tick (progressPerHour 1200), decay 11 per decay tick, no idle
delay, no population gate, no squad-size requirement. -/
def cfgFlip : Config :=
  { threshold := 100, progressPerHour := 1200, decayPerHour := 3600,
    decayIntervalSeconds := 11, decayAfterHours := 0,
    minPlayersForDecay := 0, minSquadMembers := 0, onlyOpenSquads := false }

/-- Sole roster entry of the counterexample, an eligible leader. -/
def leaderFlip : Player := ⟨"A", "Amber", 1, some sqAlpha, true⟩

theorem stepFlip1 :
    processLeader cfgFlip 1 [⟨"A", 95, 0⟩] "A" =
      ([⟨"A", 105, 1⟩], some ⟨"A", NotifMsg.nowWhitelisted⟩) := by
  have hpi : progressIncrement cfgFlip = 10 := by
    norm_num [progressIncrement, cfgFlip]
  have hsp : storedProgress [⟨"A", (95 : Rat), 0⟩] "A" = 95 := by
    norm_num [storedProgress, findRecord]
  have f1 : (⌊(95 : Rat) / 10⌋ : Int) = 9 := by
    rw [Int.floor_eq_iff]
    norm_num
  have f2 : (⌊(105 : Rat) / 10⌋ : Int) = 10 := by
    rw [Int.floor_eq_iff]
    norm_num
  simp only [processLeader, hpi, hsp, createIfMissing, findRecord, saveRecord]
  norm_num [f1, f2, cfgFlip]

theorem stepFlip2 :
    decayWhitelistProgress cfgFlip 2 0 [⟨"A", 105, 1⟩] = [⟨"A", 94, 1⟩] := by
  have hdec : decayAmountPerInterval cfgFlip = 11 := by
    norm_num [decayAmountPerInterval, cfgFlip]
  simp only [decayWhitelistProgress, decayRecord, hdec]
  norm_num [cfgFlip, max_def]

theorem stepFlip3 :
    processLeader cfgFlip 3 [⟨"A", 94, 1⟩] "A" =
      ([⟨"A", 104, 3⟩], some ⟨"A", NotifMsg.nowWhitelisted⟩) := by
  have hpi : progressIncrement cfgFlip = 10 := by
    norm_num [progressIncrement, cfgFlip]
  have hsp : storedProgress [⟨"A", (94 : Rat), 1⟩] "A" = 94 := by
    norm_num [storedProgress, findRecord]
  have f1 : (⌊(94 : Rat) / 10⌋ : Int) = 9 := by
    rw [Int.floor_eq_iff]
    norm_num
  have f2 : (⌊(104 : Rat) / 10⌋ : Int) = 10 := by
    rw [Int.floor_eq_iff]
    norm_num
  simp only [processLeader, hpi, hsp, createIfMissing, findRecord, saveRecord]
  norm_num [f1, f2, cfgFlip]

/-- Counterexample to C4: after the first accrual the stored score 105 is
at or above the threshold 100, yet after one decay tick drops the score to
94 the next accrual notifies the same player again — the code gates the
notification only on the score immediately before the update, so silence
is not permanent and the 10-point band 10 fires twice. -/
theorem threshold_silence_counterexample :
    cfgFlip.threshold ≤ 105 ∧
    (runSys cfgFlip [⟨"A", 95, 0⟩] [SysEvent.accrual 1 [leaderFlip]]).1 =
      [⟨"A", 105, 1⟩] ∧
    (runSys cfgFlip [⟨"A", 95, 0⟩]
        [SysEvent.accrual 1 [leaderFlip], SysEvent.decay 2 0,
          SysEvent.accrual 3 [leaderFlip]]).2 =
      [⟨"A", NotifMsg.nowWhitelisted⟩, ⟨"A", NotifMsg.nowWhitelisted⟩] := by
  have helig : eligibleLeaders cfgFlip [leaderFlip] = [leaderFlip] := by decide
  have hstep : ∀ (st : List ProgressRecord) (t : Int),
      sysStep cfgFlip st (SysEvent.accrual t [leaderFlip]) =
        ((processLeader cfgFlip t st "A").1,
          (processLeader cfgFlip t st "A").2.toList) := by
    intro st t
    simp only [sysStep, onPlayerInformationUpdate]
    rw [if_neg (by decide : ¬ (([leaderFlip] : List Player).length = 0)), helig]
    simp [processLeaders, leaderFlip]
  have e1 : sysStep cfgFlip [⟨"A", 95, 0⟩] (SysEvent.accrual 1 [leaderFlip]) =
      ([⟨"A", 105, 1⟩], [⟨"A", NotifMsg.nowWhitelisted⟩]) := by
    rw [hstep, stepFlip1]
    rfl
  have e2 : sysStep cfgFlip [⟨"A", 105, 1⟩] (SysEvent.decay 2 0) =
      ([⟨"A", 94, 1⟩], []) := by
    simp only [sysStep, stepFlip2]
  have e3 : sysStep cfgFlip [⟨"A", 94, 1⟩] (SysEvent.accrual 3 [leaderFlip]) =
      ([⟨"A", 104, 3⟩], [⟨"A", NotifMsg.nowWhitelisted⟩]) := by
    rw [hstep, stepFlip3]
    rfl
  refine ⟨by norm_num [cfgFlip], ?_, ?_⟩
  · simp [runSys, e1]
  · simp [runSys, e1, e2, e3]

/-- Counterexample to C6: with leaders "A" then "B" both eligible in the
same tick and the save for "A" failing, the throw reaches the tick-level
catch and ends the loop: "B" keeps score 7 instead of the 17 a processed
leader would hold (second conjunct shows the failure-free tick). -/
theorem save_failure_counterexample :
    processLeadersFail cfgFlip 1 ["A"] [⟨"A", 5, 0⟩, ⟨"B", 7, 0⟩]
        [leaderFlip, ⟨"B", "Blake", 1, some sqBravo, true⟩] =
      [⟨"A", 5, 0⟩, ⟨"B", 7, 0⟩] ∧
    findRecord (processLeaders cfgFlip 1 [⟨"A", 5, 0⟩, ⟨"B", 7, 0⟩]
        [leaderFlip, ⟨"B", "Blake", 1, some sqBravo, true⟩]).1 "B" =
      some ⟨"B", 17, 1⟩ := by
  constructor
  · simp [processLeadersFail, leaderFlip, createIfMissing, findRecord]
  · have hpi : progressIncrement cfgFlip = 10 := by
      norm_num [progressIncrement, cfgFlip]
    have hAB : ¬ ("A" = "B") := by decide
    simp only [processLeaders, leaderFlip]
    norm_num [processLeader, createIfMissing, findRecord, saveRecord,
      storedProgress, hpi, hAB]

/-- C6 (amended): a save failure for one leader is absorbed by the single
try/catch around the whole tick, so it aborts the rest of the loop:
leaders before the failure keep their updates, the failing leader keeps at
most a freshly created empty record, and every later leader is untouched
for that tick. -/
theorem save_failure_aborts_tick (cfg : Config) (now : Int)
    (fails : List String) (store : List ProgressRecord)
    (pre : List Player) (l : Player) (post : List Player)
    (hpre : ∀ p ∈ pre, p.steamID ∉ fails) (hl : l.steamID ∈ fails) :
    processLeadersFail cfg now fails store (pre ++ l :: post) =
      createIfMissing (processLeaders cfg now store pre).1 l.steamID now := by
  induction pre generalizing store with
  | nil =>
    simp only [List.nil_append, processLeadersFail, processLeaders]
    rw [if_pos hl]
  | cons p ps ih =>
    have hp : p.steamID ∉ fails := hpre p (List.mem_cons_self _ _)
    simp only [List.cons_append, processLeadersFail, processLeaders]
    rw [if_neg hp]
    exact ih (processLeader cfg now store p.steamID).1
      (fun q hq => hpre q (List.mem_cons_of_mem _ hq))

/-- Witness for the aborted tick: "A" is processed first and survives,
then the failing "B" only gets its record created. -/
theorem save_failure_witness :
    processLeadersFail cfgFlip 1 ["B"] [⟨"A", 5, 0⟩, ⟨"B", 7, 0⟩]
        [leaderFlip, ⟨"B", "Blake", 1, some sqBravo, true⟩] =
      createIfMissing
        (processLeaders cfgFlip 1 [⟨"A", 5, 0⟩, ⟨"B", 7, 0⟩] [leaderFlip]).1
        "B" 1 :=
  save_failure_aborts_tick cfgFlip 1 ["B"] [⟨"A", 5, 0⟩, ⟨"B", 7, 0⟩]
    [leaderFlip] ⟨"B", "Blake", 1, some sqBravo, true⟩ []
    (by decide) (by decide)

/-- Counterexample to C7: `mount()` line 256 also subscribes the accrual
handler to the host's UPDATED_PLAYER_INFORMATION push event, so the number
of accrual invocations in an hour grows with the push frequency — 180
under 60 pushes against 120 under none. -/
theorem accrual_push_counterexample :
    AccrualTrigger.event "UPDATED_PLAYER_INFORMATION" ∈ mountAccrualTriggers ∧
    accrualInvocationsPerHour 60 ≠ accrualInvocationsPerHour 0 := by
  constructor
  · decide
  · decide

/-- C7 (amended): accrual runs once per 30000 ms timer tick and
additionally once per roster push, 120 + pushes invocations per hour, so
the hourly credit of an always-eligible leader scales with push
frequency: 50 points with no pushes but 100 under 120 pushes per hour in
the reference configuration. -/
theorem accrual_trigger_amended :
    (∀ pushes : Nat, accrualInvocationsPerHour pushes = 120 + pushes) ∧
    AccrualTrigger.timer 30000 ∈ mountAccrualTriggers ∧
    maxCreditPerHour cfgRef 0 = 50 ∧
    maxCreditPerHour cfgRef 120 = 100 := by
  refine ⟨?_, by decide, ?_, ?_⟩
  · intro pushes
    simp [accrualInvocationsPerHour, mountAccrualTriggers]
    omega
  · norm_num [maxCreditPerHour, progressIncrement, cfgRef,
      accrualInvocationsPerHour, mountAccrualTriggers]
  · norm_num [maxCreditPerHour, progressIncrement, cfgRef,
      accrualInvocationsPerHour, mountAccrualTriggers]

/-- Counterexample to C8: the materializer writes with one direct
`fs.writeFile`; a failure after 5 bytes over prior contents "OLD" leaves
the visible file "Group" — neither the prior contents nor the full new
content, so the prior file does not remain in place and a truncated file
is visible. -/
theorem atomic_write_counterexample :
    generateWhitelistFile cfgRef "sl_whitelist" [⟨"765", 150, 0⟩] "OLD"
        (some 5) = "Group" ∧
    ("Group" : String) ≠ "OLD" ∧
    ("Group" : String) ≠ whitelistContent "sl_whitelist" ["765"] := by
  refine ⟨?_, by decide, by decide⟩
  decide

/-- C8 (amended): the rewrite is a plain in-place `fs.writeFile`, not
write-then-rename: only a complete write leaves the file equal to the
generated content, which lists exactly the rows at or above the threshold
in store order; a failed write can leave a truncated prefix instead. -/
theorem materialize_direct_write (cfg : Config) (groupName : String)
    (store : List ProgressRecord) (prior : String) :
    generateWhitelistFile cfg groupName store prior none =
      whitelistContent groupName
        ((store.filter fun r => cfg.threshold ≤ r.progress).map
          ProgressRecord.steamID) := rfl
